import Mathlib

/-!
Verification development for the tele-cloud chunked file server
(src/node_server.js).

The server splits uploaded files into chunks, stores each chunk on a remote
blob backend (Telegram), keeps one JSON metadata record per fileId, serves
downloads by re-concatenating the chunks (with limited byte-range support),
and gates deletion behind a capability token.

Shallow embedding conventions:
- JavaScript strings are modeled as List Char; JS string helpers
  (split, trim, the \s character class) are modeled explicitly below.
- JS numbers appearing in the range arithmetic are modeled as Option Int,
  with none standing for NaN; arithmetic propagates NaN like JS does.
- The blob backend (uploadToService / getFileFromService / axios fetch) is
  an external collaborator; it enters the model as explicit parameters:
  an upload result (Except Unit Nat: an opaque numeric reference or a
  failure) and a resolution oracle (Nat -> Option (List Nat)) mapping a
  stored reference to the bytes of that remote object (none models the
  null returned by getFileFromService on backend-side not-found).  A
  byte-range fetch of a remote object is modeled as the corresponding
  slice of its bytes.
- String.prototype.normalize("NFD") is a Unicode runtime primitive, so
  formatFileName takes the decomposition as a function parameter nfd;
  on ASCII input NFD is the identity, which concrete instances use.
- crypto randomBytes token generation enters as an explicit token
  parameter.
- Upload requests are modeled after field extraction: each body field
  carries a presence flag (false models a missing or empty, hence falsy,
  multipart field) and the numeric fields carry their parsed integer
  values.
-/

namespace TeleCloud

/-- The JS regular-expression class \s (whitespace), used by the
String.prototype.trim model and by the /\s+/ replacement in
formatFileName. -/
def jsWhitespace (c : Char) : Bool :=
  c == ' ' || c == '\t' || c == '\n' || c == '\r' ||
  c.toNat == 0x0b || c.toNat == 0x0c || c.toNat == 0xa0 || c.toNat == 0x1680 ||
  (decide (0x2000 ≤ c.toNat) && decide (c.toNat ≤ 0x200a)) ||
  c.toNat == 0x2028 || c.toNat == 0x2029 || c.toNat == 0x202f ||
  c.toNat == 0x205f || c.toNat == 0x3000 || c.toNat == 0xfeff

/-- JS String.prototype.split with a single-character separator.
Matches JS corner cases: "".split(s) = [""], "a.".split(".") = ["a",""].
The result is always nonempty. -/
def jsSplit (sep : Char) : List Char → List (List Char)
  | [] => [[]]
  | c :: cs =>
    if c = sep then [] :: jsSplit sep cs
    else
      match jsSplit sep cs with
      | [] => [[c]]
      | t :: ts => (c :: t) :: ts

/-- Accumulate a decimal digit list into a Nat (helper for jsParseInt). -/
def digitsToNat : List Char → Nat → Nat
  | [], acc => acc
  | c :: cs, acc => digitsToNat cs (acc * 10 + (c.toNat - 48))

/-- JS parseInt(s, 10): skip leading whitespace, optional sign, then the
longest prefix of decimal digits; none models NaN (no digits found). -/
def jsParseInt (s : List Char) : Option Int :=
  let body : List Char → Option Nat := fun t =>
    let ds := t.takeWhile Char.isDigit
    if ds = [] then none else some (digitsToNat ds 0)
  match s.dropWhile jsWhitespace with
  | '-' :: r => (body r).map (fun n => -(n : Int))
  | '+' :: r => (body r).map (fun n => (n : Int))
  | r => (body r).map (fun n => (n : Int))

/-- JS String.prototype.trim (both ends, \s class). -/
def jsTrim (s : List Char) : List Char :=
  ((s.dropWhile jsWhitespace).reverse.dropWhile jsWhitespace).reverse

/-- Characters kept by the replace(/[^a-zA-Z0-9\s-]/g, "") step of
formatFileName. -/
def jsKeep (c : Char) : Bool :=
  c.isAlpha || c.isDigit || jsWhitespace c || c == '-'

/-- Unicode combining diacritical marks U+0300..U+036F, removed by the
replace(/[̀-ͯ]/g, "") step of formatFileName. -/
def isCombining (c : Char) : Bool :=
  decide (0x300 ≤ c.toNat) && decide (c.toNat ≤ 0x36f)

/-- One pass of a global replace of nonempty runs of characters matching p
by the single character rep (models replace(/p+/g, rep)).  The Bool
argument records whether the previous character was part of a run. -/
def collapseRuns (p : Char → Bool) (rep : Char) : Bool → List Char → List Char
  | _, [] => []
  | inRun, c :: cs =>
    if p c then
      if inRun then collapseRuns p rep true cs
      else rep :: collapseRuns p rep true cs
    else c :: collapseRuns p rep false cs

/-- The extension produced by filename.split(".").pop() || "": the part of
the name after the last dot, or the whole name when it has no dot. -/
def lastExt (s : List Char) : List Char :=
  (jsSplit '.' s).getLastD []

/-- The kebab variable of formatFileName: the base name (everything before
the last dot, dots kept by the join), NFD-decomposed (parameter nfd),
stripped of combining marks, restricted to [a-zA-Z0-9\s-], trimmed,
lowercased, whitespace runs replaced by single hyphens and hyphen runs
collapsed. -/
def kebabBase (nfd : List Char → List Char) (filename : List Char) : List Char :=
  let splitted := jsSplit '.' filename
  let name := List.intercalate ['.'] splitted.dropLast
  let cleaned := jsTrim (((nfd name).filter (fun c => !isCombining c)).filter jsKeep)
  collapseRuns (fun c => c == '-') '-' false
    (collapseRuns jsWhitespace '-' false (cleaned.map Char.toLower))

/-- formatFileName from node_server.js.  nfd models the external
String.prototype.normalize("NFD") primitive (identity on ASCII).
Splits off the extension (split(".").pop() || ""), cleans the base name
into kebabBase, then reattaches the extension (with an optional
-chunkIndex suffix on the base for chunk names). -/
def formatFileName (nfd : List Char → List Char) (filename : List Char)
    (isChunk : Bool) (chunkIndex : Nat) : List Char :=
  kebabBase nfd filename ++ (if isChunk then '-' :: (toString chunkIndex).data else [])
    ++ '.' :: lastExt filename

/-- The metadata record persisted as metadata/<fileId>.json.  The fileId
field stored in the JSON is omitted: the model is per fileId (records of
distinct fileIds never interact). -/
structure FileRecord where
  done : Bool
  fileName : List Char
  fileSize : Int
  chunkSize : Int
  totalChunks : Int
  deleteToken : Option (List Char)
  fileIds : List Nat
  deriving DecidableEq

/-- A POST /u request after multipart extraction.  hasX = false models a
missing (or empty, hence falsy) body field; the numeric fields carry the
parseInt-ed values. -/
structure ChunkReq where
  hasChunk : Bool
  hasFileId : Bool
  fileName : List Char
  hasFileName : Bool
  fileSize : Int
  hasFileSize : Bool
  chunkIndex : Int
  hasChunkIndex : Bool
  chunkSize : Int
  hasChunkSize : Bool
  totalChunks : Int
  hasTotalChunks : Bool
  deriving DecidableEq

/-- The missing-required-fields guard of POST /u. -/
def reqComplete (req : ChunkReq) : Bool :=
  req.hasChunk && req.hasFileId && req.hasFileName && req.hasFileSize &&
  req.hasChunkIndex && req.hasChunkSize && req.hasTotalChunks

/-- The fresh metadata record written when no metadata file exists yet for
the fileId (done: false, formatted fileName, declared sizes, null
deleteToken, empty fileIds). -/
def newRecord (nfd : List Char → List Char) (req : ChunkReq) : FileRecord :=
  { done := false
    fileName := formatFileName nfd req.fileName false 0
    fileSize := req.fileSize
    chunkSize := req.chunkSize
    totalChunks := req.totalChunks
    deleteToken := none
    fileIds := [] }

/-- The record as re-read after the create-if-absent step of POST /u. -/
def ensureRecord (nfd : List Char → List Char) (st : Option FileRecord)
    (req : ChunkReq) : FileRecord :=
  match st with
  | some r => r
  | none => newRecord nfd req

/-- Observable outcome of one POST /u request: HTTP status, whether the
backend upload was attempted, and the stored record afterwards. -/
structure UploadOutcome where
  status : Nat
  backendCalled : Bool
  state : Option FileRecord
  deriving DecidableEq

/-- The POST /u handler (app.post("/u")) for one fileId.
st is the stored record before the call (none: no metadata file).
backend is the result of uploadToService for this chunk: ok ref on
success (after the internal rate-limit retry loop, which never surfaces
to the client), error on any other backend failure, which the handler
turns into a 500.  tok is the value generateDeleteToken() would return.

Order of operations mirrors the source: field presence check (400),
chunk-size bounds check (400), conflict check on an existing completed
record (409), create-if-absent (persisted immediately), backend upload,
then append the returned reference, set done and deleteToken when
chunkIndex == totalChunks - 1 (both from the request), and persist. -/
def ingestChunk (nfd : List Char → List Char) (st : Option FileRecord)
    (req : ChunkReq) (backend : Except Unit Nat) (tok : List Char) : UploadOutcome :=
  if ¬ reqComplete req then ⟨400, false, st⟩
  else if req.chunkSize < 1048576 ∨ req.chunkSize > 52428800 then ⟨400, false, st⟩
  else if (match st with | some r => r.done | none => false) then ⟨409, false, st⟩
  else
    let r1 := ensureRecord nfd st req
    match backend with
    | .error _ => ⟨500, true, some r1⟩
    | .ok ref =>
      let fin := req.chunkIndex = req.totalChunks - 1
      let r2 : FileRecord :=
        { r1 with
          fileIds := r1.fileIds ++ [ref]
          done := if fin then true else r1.done
          deleteToken := if fin then some tok else r1.deleteToken }
      ⟨200, true, some r2⟩

/-- Observable outcome of one DELETE /:fileId request. -/
structure DeleteOutcome where
  status : Nat
  state : Option FileRecord
  deriving DecidableEq

/-- The DELETE /:fileId handler (app.delete("/:fileId")) for one fileId.
token none models a missing body token; a present-but-empty token is
falsy in JS and also hits the missing-token 400.  A record whose
deleteToken is null (or empty) yields 400 "This file cannot be deleted";
a mismatched token yields 403; otherwise the metadata file is unlinked. -/
def deleteFile (st : Option FileRecord) (token : Option (List Char)) : DeleteOutcome :=
  match token with
  | none => ⟨400, st⟩
  | some t =>
    if t = [] then ⟨400, st⟩
    else
      match st with
      | none => ⟨404, st⟩
      | some r =>
        match r.deleteToken with
        | none => ⟨400, st⟩
        | some tk =>
          if tk = [] then ⟨400, st⟩
          else if tk ≠ t then ⟨403, st⟩
          else ⟨200, none⟩

/-- JS number addition of a constant, with none = NaN propagated. -/
def jadd (a : Option Int) (b : Int) : Option Int :=
  a.map (fun x => x + b)

/-- JS subtraction of two possibly-NaN numbers. -/
def jsub (a b : Option Int) : Option Int :=
  match a, b with
  | some x, some y => some (x - y)
  | _, _ => none

/-- JS Math.min against a constant: Math.min(NaN, b) is NaN. -/
def jmin (a : Option Int) (b : Int) : Option Int :=
  a.map (fun x => min x b)

/-- JS Math.floor(a / b) for a possibly-NaN numerator.  A nonpositive b is
mapped to NaN; in the server b is metadata.chunkSize, which the upload
path constrains to at least 1 MiB, so that branch is out of reach. -/
def jfloorDiv (a : Option Int) (b : Int) : Option Int :=
  match a with
  | none => none
  | some x => if b ≤ 0 then none else some (Int.fdiv x b)

/-- JS Math.ceil(a / b), same conventions as jfloorDiv. -/
def jceilDiv (a : Option Int) (b : Int) : Option Int :=
  match a with
  | none => none
  | some x => if b ≤ 0 then none else some (-(Int.fdiv (-x) b))

/-- JS a % b (remainder, sign of the dividend), same conventions. -/
def jmod (a : Option Int) (b : Int) : Option Int :=
  match a with
  | none => none
  | some x => if b ≤ 0 then none else some (Int.tmod x b)

/-- JS Array.prototype.slice index resolution: NaN becomes 0, negative
indices count from the end, everything is clamped to the length. -/
def sliceIndex (len : Nat) : Option Int → Nat
  | none => 0
  | some v => if v < 0 then ((len : Int) + v).toNat else min v.toNat len

/-- JS Array.prototype.slice(s, e) with possibly-NaN arguments. -/
def jsSlice {α : Type} (l : List α) (s e : Option Int) : List α :=
  (l.take (sliceIndex l.length e)).drop (sliceIndex l.length s)

/-- One entry of partsToDownload: the resolved remote object's bytes plus
the optional start/end offsets the loop turns into an upstream Range
header.  The outer Option is JS undefined (offset never assigned); the
inner Option Int is the assigned JS number, none = NaN. -/
structure Part where
  chunk : List Nat
  pstart : Option (Option Int)
  pend : Option (Option Int)
  deriving DecidableEq

/-- Parts after the first selected one: only the last gets the end offset. -/
def tailParts (e : Option Int) : List (List Nat) → List Part
  | [] => []
  | [c] => [⟨c, none, some e⟩]
  | c :: cs => ⟨c, none, none⟩ :: tailParts e cs

/-- The selected chunks with parts[0].start and parts[parts.length-1].end
assigned (both on the same part when only one chunk is selected). -/
def mkParts (chunks : List (List Nat)) (s e : Option Int) : List Part :=
  match chunks with
  | [] => []
  | [c] => [⟨c, some s, some e⟩]
  | c :: cs => ⟨c, some s, none⟩ :: tailParts e cs

/-- The bytes an upstream byte-range fetch of a remote object returns:
bytes s..e of the object (inclusive, clamped to the object's size), or
s.. to the end when the range is open-ended. -/
def byteRange (l : List Nat) (s : Int) (e : Option Int) : List Nat :=
  if s < 0 then []
  else
    match e with
    | none => l.drop s.toNat
    | some ev => if ev < s then [] else (l.take (ev.toNat + 1)).drop s.toNat

/-- Fetch one part.  With no assigned offsets no Range header is sent and
the whole object streams.  part.start || 0 turns an unassigned or NaN
start into 0.  An assigned NaN end would render as the invalid header
bytes=..-NaN, which the upstream rejects: modeled as a failed fetch
(none). -/
def fetchPart (p : Part) : Option (List Nat) :=
  match p.pstart, p.pend with
  | none, none => some p.chunk
  | ps, pe =>
    let hs : Int := match ps with | some (some v) => v | _ => 0
    match pe with
    | none => some (byteRange p.chunk hs none)
    | some (some v) => some (byteRange p.chunk hs (some v))
    | some none => none

/-- Sequential streaming of the parts to the response: a failed fetch cuts
the stream (the bytes already written stay written, nothing follows). -/
def streamParts : List Part → List Nat
  | [] => []
  | p :: ps =>
    match fetchPart p with
    | none => []
    | some bs => bs ++ streamParts ps

/-- The range parse of the GET /:fileId handler:
parseInt(rangeStr.split("=")[1].split("-")[0], 10).
Outer none: the header has no "=", so split("=")[1] is undefined and the
handler throws (caught as a 500).  Inner: the parsed start, none = NaN. -/
def parseRangeStart (rs : List Char) : Option (Option Int) :=
  match (jsSplit '=' rs).get? 1 with
  | none => none
  | some t1 => some (jsParseInt ((jsSplit '-' t1).headI))

/-- The range computation of the download handler for a parsed start:
end, startPartNumber, endPartNumber, and the selected parts with their
offsets. -/
structure RangePlan where
  start : Option Int
  stop : Option Int
  startPart : Option Int
  endPart : Option Int
  parts : List Part
  deriving DecidableEq

/-- The body of the partsToDownload closure in the ranged case, mirroring
the source: stop is min(start + chunkSize, fileSize - 1) (the variable
named end there), startPart = floor(start / chunkSize), endPart =
ceil(end / chunkSize), parts = urls.slice(startPart, endPart) with
start % chunkSize and end % chunkSize assigned to the first and last
selected part. -/
def rangePlan (chunkSize fileSize : Int) (urls : List (List Nat))
    (start : Option Int) : RangePlan :=
  let stop := jmin (jadd start chunkSize) (fileSize - 1)
  let sp := jfloorDiv start chunkSize
  let ep := jceilDiv stop chunkSize
  ⟨start, stop, sp, ep,
    mkParts (jsSlice urls sp ep) (jmod start chunkSize) (jmod stop chunkSize)⟩

/-- Observable outcome of one GET /:fileId request: status, the final
Content-Length header (none: NaN or not meaningfully set on the
404/500 paths), the Content-Range header rendered as its three numbers
(none when the header is never set), and the streamed body. -/
structure DownloadResult where
  status : Nat
  contentLength : Option Int
  contentRange : Option (Option Int × Option Int × Int)
  body : List Nat
  deriving DecidableEq

/-- convertFileIdsToUrls: resolve every stored reference and silently drop
the nulls (urls.filter(Boolean)). -/
def convertFileIdsToUrls (resolve : Nat → Option (List Nat)) (fileIds : List Nat) :
    List (List Nat) :=
  fileIds.filterMap resolve

/-- The GET /:fileId handler (app.get("/:fileId")) for one fileId.
resolve is the backend resolution oracle for stored references (none
models getFileFromService returning null).  range is the Range header
(none: absent or empty, both falsy).  Without a range the full resolved
list streams with status 200 and Content-Length = fileSize.  With a
range the handler always commits to 206 after parsing a start (NaN
included); a header without "=" throws before anything streams and is
answered 500. -/
def download (st : Option FileRecord) (resolve : Nat → Option (List Nat))
    (range : Option (List Char)) : DownloadResult :=
  match st with
  | none => ⟨404, none, none, []⟩
  | some r =>
    let urls := convertFileIdsToUrls resolve r.fileIds
    let full : DownloadResult :=
      ⟨200, some r.fileSize, none, streamParts (urls.map (fun u => ⟨u, none, none⟩))⟩
    match range with
    | none => full
    | some rs =>
      if rs = [] then full
      else
        match parseRangeStart rs with
        | none => ⟨500, none, none, []⟩
        | some start =>
          let p := rangePlan r.chunkSize r.fileSize urls start
          ⟨206, jadd (jsub p.stop p.start) 1, some (p.start, p.stop, r.fileSize),
            streamParts p.parts⟩

/-- States of one fileId's metadata reachable from the empty store by any
sequence of upload, download and delete requests (download never
mutates the store). -/
inductive Reach : Option FileRecord → Prop
  | init : Reach none
  | upload (nfd : List Char → List Char) (req : ChunkReq) (backend : Except Unit Nat)
      (tok : List Char) {st : Option FileRecord} :
      Reach st → Reach (ingestChunk nfd st req backend tok).state
  | del (token : Option (List Char)) {st : Option FileRecord} :
      Reach st → Reach (deleteFile st token).state

/-! ### Concrete instances used by counterexamples and witnesses -/

/-- NFD normalization is the identity on ASCII input; concrete instances
use it through this function. -/
def nfdId : List Char → List Char := fun s => s

/-- A valid chunk-upload request for chunk 0 of 2 (chunkSize 1 MiB). -/
def reqA : ChunkReq :=
  { hasChunk := true, hasFileId := true, fileName := ['f'], hasFileName := true,
    fileSize := 2097152, hasFileSize := true, chunkIndex := 0, hasChunkIndex := true,
    chunkSize := 1048576, hasChunkSize := true, totalChunks := 2, hasTotalChunks := true }

/-- A delete-token value as generateDeleteToken could mint. -/
def tokK : List Char := ['k']

/-- The store for one fileId after three uploads of reqA (chunkIndex 0 of
totalChunks 2, never the final index) against an initially empty store. -/
def stAfter3 : Option FileRecord :=
  (ingestChunk nfdId
    (ingestChunk nfdId
      (ingestChunk nfdId none reqA (Except.ok 100) tokK).state
      reqA (Except.ok 101) tokK).state
    reqA (Except.ok 102) tokK).state

/-- Number of stored chunk references (chunkRefs.length, 0 for an absent
record). -/
def refsLen (st : Option FileRecord) : Nat :=
  st.elim 0 (fun r => r.fileIds.length)

/-- A record whose upload never completed: done false, deleteToken null. -/
def rND : FileRecord :=
  { done := false, fileName := ['f'], fileSize := 2097152, chunkSize := 1048576,
    totalChunks := 2, deleteToken := none, fileIds := [7] }

/-- A record with stored totalChunks 5, upload not complete. -/
def r9 : FileRecord :=
  { done := false, fileName := ['f'], fileSize := 9999999, chunkSize := 1048576,
    totalChunks := 5, deleteToken := none, fileIds := [7] }

/-- A request whose declared totalChunks (2) differs from the stored
totalChunks of r9 (5), with chunkIndex 1 = declared totalChunks - 1. -/
def req9 : ChunkReq :=
  { hasChunk := true, hasFileId := true, fileName := ['f'], hasFileName := true,
    fileSize := 9999999, hasFileSize := true, chunkIndex := 1, hasChunkIndex := true,
    chunkSize := 1048576, hasChunkSize := true, totalChunks := 2, hasTotalChunks := true }

/-- A completed record (done, token minted). -/
def recDone : FileRecord :=
  { done := true, fileName := ['f'], fileSize := 9999999, chunkSize := 1048576,
    totalChunks := 5, deleteToken := some ['d'], fileIds := [7, 8, 9] }

/-! ### C2: conflict guard -/

/-- C2: for every fileId whose stored record has done == true, any further
well-formed ingestChunk call (fields present, chunk size in bounds — the
validation the handler runs before the conflict check) returns 409,
performs no backend upload, and leaves the stored record unchanged. -/
theorem conflict_guard_after_done (nfd : List Char → List Char)
    (st : Option FileRecord) (req : ChunkReq) (backend : Except Unit Nat)
    (tok : List Char) (r : FileRecord)
    (hreq : reqComplete req = true)
    (hlo : 1048576 ≤ req.chunkSize) (hhi : req.chunkSize ≤ 52428800)
    (hst : st = some r) (hdone : r.done = true) :
    ingestChunk nfd st req backend tok = ⟨409, false, st⟩ := by
  subst hst
  have hsz : ¬ (req.chunkSize < 1048576 ∨ req.chunkSize > 52428800) := by omega
  simp [ingestChunk, hreq, hsz, hdone]

/-- C2 witness: a concrete completed record rejects a further upload with
409 and keeps its state. -/
theorem conflict_guard_after_done_witness :
    ingestChunk nfdId (some recDone) req9 (Except.ok 8) tokK = ⟨409, false, some recDone⟩ :=
  conflict_guard_after_done nfdId (some recDone) req9 (Except.ok 8) tokK recDone
    (by decide) (by decide) (by decide) rfl (by decide)

/-! ### C4: chunkRefs growth -/

/-- C4 counterexample: after three successful uploads of chunkIndex 0
against declared totalChunks 2, the stored record holds 3 chunk
references, exceeding its totalChunks — refuting the claimed bound
chunkRefs.length ≤ totalChunks. -/
theorem fileIds_exceed_totalChunks_counterexample :
    refsLen stAfter3 = 3 ∧
    stAfter3.elim 0 (fun r => r.totalChunks.toNat) = 2 ∧
    ¬ ((refsLen stAfter3 : Int) ≤ stAfter3.elim 0 (fun r => r.totalChunks)) := by
  decide

/-- C4 (amended): across every ingestChunk call the number of stored chunk
references never decreases (monotonic growth), but no bound by
totalChunks is enforced: the handler appends unconditionally, so
repeated uploads of a non-final index can push chunkRefs.length past
totalChunks. -/
theorem fileIds_monotone (nfd : List Char → List Char) (st : Option FileRecord)
    (req : ChunkReq) (backend : Except Unit Nat) (tok : List Char) :
    refsLen st ≤ refsLen (ingestChunk nfd st req backend tok).state := by
  unfold ingestChunk
  split
  · exact le_refl _
  · split
    · exact le_refl _
    · split
      · exact le_refl _
      · cases backend with
        | error e =>
          cases st with
          | none => simp [refsLen, ensureRecord, newRecord]
          | some r => simp [refsLen, ensureRecord]
        | ok ref =>
          cases st with
          | none => simp [refsLen, ensureRecord, newRecord]
          | some r => simp [refsLen, ensureRecord]

/-! ### C6: deletion with null token -/

/-- C6 counterexample: with a record whose deleteToken is null and a
well-formed request, the handler answers 400 ("This file cannot be
deleted"), not the claimed 403; the record is left intact. -/
theorem delete_null_token_counterexample :
    (deleteFile (some rND) (some ['x'])).status = 400 ∧
    ¬ ((deleteFile (some rND) (some ['x'])).status = 403) ∧
    (deleteFile (some rND) (some ['x'])).state = some rND := by
  decide

/-- C6 (amended): deleteFile with a well-formed request (token present,
record exists) returns 400 Bad Request ("This file cannot be deleted")
whenever the record's deleteToken is null, and leaves the record
intact. -/
theorem delete_null_token_bad_request (st : Option FileRecord) (r : FileRecord)
    (t : List Char) (hst : st = some r) (hnull : r.deleteToken = none) :
    deleteFile st (some t) = ⟨400, st⟩ := by
  subst hst
  by_cases ht : t = [] <;> simp [deleteFile, ht, hnull]

/-- C6 witness: the concrete never-completed record is answered 400. -/
theorem delete_null_token_bad_request_witness :
    deleteFile (some rND) (some ['x']) = ⟨400, some rND⟩ :=
  delete_null_token_bad_request (some rND) rND ['x'] rfl (by decide)

/-! ### C8: backend failure semantics -/

/-- C8 counterexample: a first-chunk upload for a fresh fileId whose
backend upload fails returns 500, but the metadata record is NOT what
it was before the call: the create-if-absent step already persisted a
fresh record before the backend was contacted. -/
theorem backend_failure_creates_record_counterexample :
    (ingestChunk nfdId none reqA (Except.error ()) tokK).status = 500 ∧
    ¬ ((ingestChunk nfdId none reqA (Except.error ()) tokK).state = none) := by
  decide

/-- C8 (amended): when the backend upload fails with a non-rate-limit
error on a well-formed request against a not-yet-done store, the call
returns 500 and the stored record is ensureRecord: for a fileId that
already had a record, that record exactly as it was (no reference
appended, done and deleteToken unchanged — retrying the same chunkIndex
is safe); for a fresh fileId, the freshly created empty record (done
false, deleteToken null, no references) persists despite the failure. -/
theorem backend_failure_metadata (nfd : List Char → List Char)
    (st : Option FileRecord) (req : ChunkReq) (tok : List Char)
    (hreq : reqComplete req = true)
    (hlo : 1048576 ≤ req.chunkSize) (hhi : req.chunkSize ≤ 52428800)
    (hnd : st.elim True (fun r => r.done = false)) :
    ingestChunk nfd st req (Except.error ()) tok = ⟨500, true, some (ensureRecord nfd st req)⟩ ∧
    (∀ r, st = some r → ensureRecord nfd st req = r) ∧
    (st = none → ensureRecord nfd st req = newRecord nfd req) := by
  have hsz : ¬ (req.chunkSize < 1048576 ∨ req.chunkSize > 52428800) := by omega
  refine ⟨?_, ?_, ?_⟩
  · cases st with
    | none => simp [ingestChunk, hreq, hsz]
    | some r => simp only [Option.elim] at hnd; simp [ingestChunk, hreq, hsz, hnd]
  · intro r hr; subst hr; rfl
  · intro hr; subst hr; rfl

/-- C8 witness: concrete backend failure against an existing record leaves
it untouched and answers 500. -/
theorem backend_failure_metadata_witness :
    ingestChunk nfdId (some r9) req9 (Except.error ()) tokK =
      ⟨500, true, some (ensureRecord nfdId (some r9) req9)⟩ :=
  (backend_failure_metadata nfdId (some r9) req9 tokK
    (by decide) (by decide) (by decide) rfl).1

/-! ### C9: completion decided by request-supplied totalChunks -/

/-- C9: when ingesting into an existing not-yet-done record, completion is
decided by comparing the request's chunkIndex with the request's
totalChunks - 1, not the stored totalChunks: even when the declared
totalChunks differs from the stored one and the stored final index was
never ingested, the record is marked done and a deleteToken minted. -/
theorem done_uses_request_totalChunks (nfd : List Char → List Char)
    (r : FileRecord) (req : ChunkReq) (ref : Nat) (tok : List Char)
    (hreq : reqComplete req = true)
    (hlo : 1048576 ≤ req.chunkSize) (hhi : req.chunkSize ≤ 52428800)
    (hdone : r.done = false)
    (hfin : req.chunkIndex = req.totalChunks - 1)
    (_hdiff : req.totalChunks ≠ r.totalChunks)
    (_hnotstored : req.chunkIndex ≠ r.totalChunks - 1) :
    (ingestChunk nfd (some r) req (Except.ok ref) tok).state =
      some { r with
        fileIds := r.fileIds ++ [ref]
        done := true
        deleteToken := some tok } := by
  have hsz : ¬ (req.chunkSize < 1048576 ∨ req.chunkSize > 52428800) := by omega
  simp [ingestChunk, hreq, hsz, hdone, ensureRecord, hfin]

/-- C9 witness: stored totalChunks 5, request declares totalChunks 2 with
chunkIndex 1: the record is marked done with a minted token although
stored index 4 was never ingested. -/
theorem done_uses_request_totalChunks_witness :
    (ingestChunk nfdId (some r9) req9 (Except.ok 8) tokK).state =
      some { r9 with
        fileIds := r9.fileIds ++ [8]
        done := true
        deleteToken := some tokK } :=
  done_uses_request_totalChunks nfdId r9 req9 8 tokK
    (by decide) (by decide) (by decide) (by decide) (by decide) (by decide) (by decide)

/-! ### C3: deleteToken non-null iff done -/

/-- Auxiliary: one ingestChunk call preserves the token-iff-done record
invariant. -/
theorem ingest_preserves_token_iff_done (nfd : List Char → List Char)
    (st : Option FileRecord) (req : ChunkReq) (backend : Except Unit Nat)
    (tok : List Char)
    (h : ∀ r, st = some r → (r.deleteToken ≠ none ↔ r.done = true)) :
    ∀ r', (ingestChunk nfd st req backend tok).state = some r' →
      (r'.deleteToken ≠ none ↔ r'.done = true) := by
  intro r' hr'
  unfold ingestChunk at hr'
  split at hr'
  · exact h r' hr'
  · split at hr'
    · exact h r' hr'
    · split at hr'
      · exact h r' hr'
      · cases backend with
        | error e =>
          simp only [UploadOutcome.mk.injEq] at hr'
          cases st with
          | none =>
            cases hr'
            simp [ensureRecord, newRecord]
          | some r =>
            cases hr'
            exact h r rfl
        | ok ref =>
          simp only [UploadOutcome.mk.injEq] at hr'
          cases hr'
          by_cases hfin : req.chunkIndex = req.totalChunks - 1
          · simp [hfin]
          · cases st with
            | none => simp [hfin, ensureRecord, newRecord]
            | some r => simpa [hfin, ensureRecord] using h r rfl

/-- Auxiliary: deleteFile either keeps the store or empties it. -/
theorem deleteFile_state_cases (st : Option FileRecord) (token : Option (List Char)) :
    (deleteFile st token).state = st ∨ (deleteFile st token).state = none := by
  unfold deleteFile
  rcases token with _ | t
  · exact Or.inl rfl
  · by_cases ht : t = []
    · simp [ht]
    · rcases st with _ | r
      · simp [ht]
      · rcases hr : r.deleteToken with _ | tk
        · simp [ht, hr]
        · by_cases htk : tk = []
          · simp [ht, hr, htk]
          · by_cases hne : tk ≠ t <;> simp [ht, hr, htk, hne]

/-- C3: in every record reachable by any sequence of upload, download and
delete operations, deleteToken is non-null iff done is true; moreover on
every successful chunk ingestion into a not-yet-done record, done and
deleteToken are set together in the same persisted write, exactly when
the request's chunkIndex equals the request's totalChunks - 1. -/
theorem token_iff_done_invariant :
    (∀ st, Reach st → ∀ r, st = some r → (r.deleteToken ≠ none ↔ r.done = true)) ∧
    (∀ (nfd : List Char → List Char) (st : Option FileRecord) (req : ChunkReq)
      (ref : Nat) (tok : List Char) (r0 : FileRecord),
      reqComplete req = true →
      1048576 ≤ req.chunkSize → req.chunkSize ≤ 52428800 →
      st = some r0 → r0.done = false →
      (ingestChunk nfd st req (Except.ok ref) tok).state =
        some { r0 with
          fileIds := r0.fileIds ++ [ref]
          done := if req.chunkIndex = req.totalChunks - 1 then true else false
          deleteToken := if req.chunkIndex = req.totalChunks - 1 then some tok
                         else r0.deleteToken }) := by
  constructor
  · intro st h
    induction h with
    | init => intro r hr; cases hr
    | upload nfd req backend tok hst ih =>
      exact ingest_preserves_token_iff_done nfd _ req backend tok ih
    | del token hst ih =>
      intro r hr
      rcases deleteFile_state_cases _ token with hc | hc
      · rw [hc] at hr; exact ih r hr
      · rw [hc] at hr; cases hr
  · intro nfd st req ref tok r0 hreq hlo hhi hst hdone
    subst hst
    have hsz : ¬ (req.chunkSize < 1048576 ∨ req.chunkSize > 52428800) := by omega
    by_cases hfin : req.chunkIndex = req.totalChunks - 1 <;>
      simp [ingestChunk, hreq, hsz, hdone, ensureRecord, hfin]

/-- C3 witness: the completion write of a concrete upload sets done and the
token together. -/
theorem token_iff_done_invariant_witness :
    (ingestChunk nfdId (some r9) req9 (Except.ok 8) tokK).state =
      some { r9 with
        fileIds := r9.fileIds ++ [8]
        done := if req9.chunkIndex = req9.totalChunks - 1 then true else false
        deleteToken := if req9.chunkIndex = req9.totalChunks - 1 then some tokK
                       else r9.deleteToken } :=
  token_iff_done_invariant.2 nfdId (some r9) req9 8 tokK r9
    (by decide) (by decide) (by decide) rfl (by decide)

/-! ### C1: range arithmetic -/

/-- The 3-chunk record of the spec's worked example: fileSize 25_000_000,
chunkSize 10_000_000. -/
def rC1 : FileRecord :=
  { done := true, fileName := ['f'], fileSize := 25000000, chunkSize := 10000000,
    totalChunks := 3, deleteToken := some ['t'], fileIds := [0, 1, 2] }

/-- A resolution oracle for rC1's references.  The range arithmetic under
test never looks at chunk contents, so tiny one-byte stand-ins keep the
closed computations small. -/
def resolveC1 : Nat → Option (List Nat) := fun r => some [r]

/-- The resolved URL list of rC1 under resolveC1. -/
def urlsC1 : List (List Nat) := [[0], [1], [2]]

/-- The worked example's range header. -/
def rangeC1 : List Char := "bytes=5000000-".data

/-- Floor-division characterization of Int.fdiv for a positive divisor. -/
theorem fdiv_char (x b : Int) (hb : 0 < b) :
    b * Int.fdiv x b ≤ x ∧ x < b * (Int.fdiv x b + 1) := by
  rw [Int.fdiv_eq_ediv x (le_of_lt hb)]
  have h1 := Int.ediv_add_emod x b
  have h2 := Int.emod_nonneg x (ne_of_gt hb)
  have h3 := Int.emod_lt_of_pos x hb
  constructor
  · linarith
  · have : b * (x / b + 1) = b * (x / b) + b := by ring
    linarith

/-- C1 counterexample: on the spec's own example the code produces
end = 15000000 (min(start + chunkSize, fileSize - 1) with
start = 5000000, chunkSize = 10000000), so Content-Range is
bytes 5000000-15000000/25000000 and Content-Length is 10000001 — not the
claimed end 14999999 and Content-Length 10000000. -/
theorem range_arithmetic_counterexample :
    (download (some rC1) resolveC1 (some rangeC1)).contentRange =
      some (some 5000000, some 15000000, 25000000) ∧
    ¬ ((download (some rC1) resolveC1 (some rangeC1)).contentRange =
      some (some 5000000, some 14999999, 25000000)) ∧
    ¬ ((download (some rC1) resolveC1 (some rangeC1)).contentLength = some 10000000) := by
  decide

/-- C1 (amended): the general formulas hold as the code computes them —
end = min(start + chunkSize, fileSize - 1), startPart = floor(start /
chunkSize) and endPart = ceil(end / chunkSize) (stated through the
floor/ceiling characterizations) — and on the worked example
end = 15000000 (not 14999999): status 206, startPart 0, endPart 2, the
end-exclusive slice selects chunks 0 and 1 with first-part offset
5000000 and last-part end offset 5000000 (not 4999999), Content-Length
10000001 (end - start + 1) and Content-Range
bytes 5000000-15000000/25000000. -/
theorem range_arithmetic :
    (download (some rC1) resolveC1 (some rangeC1) =
      ⟨206, some 10000001, some (some 5000000, some 15000000, 25000000), [1]⟩ ∧
     (rangePlan 10000000 25000000 urlsC1 (some 5000000)).startPart = some 0 ∧
     (rangePlan 10000000 25000000 urlsC1 (some 5000000)).endPart = some 2 ∧
     (rangePlan 10000000 25000000 urlsC1 (some 5000000)).parts =
       [⟨[0], some (some 5000000), none⟩, ⟨[1], none, some (some 5000000)⟩]) ∧
    (∀ (cs fs v : Int) (urls : List (List Nat)), 0 < cs →
      (rangePlan cs fs urls (some v)).stop = some (min (v + cs) (fs - 1)) ∧
      (∃ q1, (rangePlan cs fs urls (some v)).startPart = some q1 ∧
        cs * q1 ≤ v ∧ v < cs * (q1 + 1)) ∧
      (∃ q2, (rangePlan cs fs urls (some v)).endPart = some q2 ∧
        cs * (q2 - 1) < min (v + cs) (fs - 1) ∧ min (v + cs) (fs - 1) ≤ cs * q2)) := by
  constructor
  · exact ⟨by decide, by decide, by decide, by decide⟩
  · intro cs fs v urls hcs
    have hb : ¬ cs ≤ 0 := not_le.mpr hcs
    refine ⟨?_, ?_, ?_⟩
    · simp [rangePlan, jmin, jadd]
    · refine ⟨Int.fdiv v cs, ?_, (fdiv_char v cs hcs).1, (fdiv_char v cs hcs).2⟩
      simp [rangePlan, jfloorDiv, hb]
    · set e := min (v + cs) (fs - 1) with he
      refine ⟨-(Int.fdiv (-e) cs), ?_, ?_, ?_⟩
      · simp [rangePlan, jceilDiv, jmin, jadd, hb, he]
      · have h := (fdiv_char (-e) cs hcs).2
        have hexp : cs * (-(Int.fdiv (-e) cs) - 1) = -(cs * (Int.fdiv (-e) cs + 1)) := by ring
        linarith
      · have h := (fdiv_char (-e) cs hcs).1
        have hexp : cs * (-(Int.fdiv (-e) cs)) = -(cs * Int.fdiv (-e) cs) := by ring
        linarith

/-- C1 witness: the general end formula evaluated at the worked example. -/
theorem range_arithmetic_witness :
    (rangePlan 10000000 25000000 urlsC1 (some 5000000)).stop =
      some (min (5000000 + 10000000) (25000000 - 1)) :=
  (range_arithmetic.2 10000000 25000000 5000000 urlsC1 (by decide)).1

/-! ### C7: Range header forms -/

/-- jsSplit never returns an empty list (JS split always yields at least
one piece). -/
theorem jsSplit_ne_nil (sep : Char) (l : List Char) : jsSplit sep l ≠ [] := by
  induction l with
  | nil => simp [jsSplit]
  | cons c cs ih =>
    simp only [jsSplit]
    split
    · simp
    · cases h : jsSplit sep cs with
      | nil => simp
      | cons t ts => simp

/-- Prepending a non-separator character does not change split piece 1. -/
theorem jsSplit_get1_cons (sep c : Char) (l : List Char) (h : ¬ c = sep) :
    (jsSplit sep (c :: l)).get? 1 = (jsSplit sep l).get? 1 := by
  simp only [jsSplit, if_neg h]
  cases hs : jsSplit sep l with
  | nil => exact absurd hs (jsSplit_ne_nil sep l)
  | cons t ts => simp

/-- The first split piece is the prefix before the first separator. -/
theorem jsSplit_headI (sep : Char) (l : List Char) :
    (jsSplit sep l).headI = l.takeWhile (fun c => c != sep) := by
  induction l with
  | nil => rfl
  | cons c cs ih =>
    by_cases h : c = sep
    · subst h; simp [jsSplit]
    · simp only [jsSplit, if_neg h]
      cases hs : jsSplit sep cs with
      | nil => exact absurd hs (jsSplit_ne_nil sep cs)
      | cons t ts =>
        have ht : t = cs.takeWhile (fun c => c != sep) := by
          rw [← ih, hs]; rfl
        simp [List.takeWhile_cons, bne_iff_ne, h, ht]

/-- takeWhile walks through a prefix whose characters all satisfy the
predicate. -/
theorem takeWhile_append_all (f : Char → Bool) (p l : List Char)
    (h : ∀ c ∈ p, f c = true) :
    (p ++ l).takeWhile f = p ++ l.takeWhile f := by
  induction p with
  | nil => rfl
  | cons c cs ih =>
    have hc : f c = true := h c (by simp)
    simp only [List.cons_append, List.takeWhile_cons, hc, if_true]
    rw [ih (fun d hd => h d (by simp [hd]))]

/-- The range parse of a header of the shape bytes=<x>: piece 1 after the
first "=" then the prefix before the first "-", fed to parseInt. -/
theorem parseRangeStart_bytes (x : List Char) :
    parseRangeStart ("bytes=".data ++ x) =
      some (jsParseInt ((x.takeWhile (fun c => c != '=')).takeWhile (fun c => c != '-'))) := by
  unfold parseRangeStart
  have h1 : (jsSplit '=' ("bytes=".data ++ x)).get? 1 =
      some (x.takeWhile (fun c => c != '=')) := by
    show (jsSplit '=' ('b' :: 'y' :: 't' :: 'e' :: 's' :: '=' :: x)).get? 1 = _
    rw [jsSplit_get1_cons '=' 'b' _ (by decide), jsSplit_get1_cons '=' 'y' _ (by decide),
        jsSplit_get1_cons '=' 't' _ (by decide), jsSplit_get1_cons '=' 'e' _ (by decide),
        jsSplit_get1_cons '=' 's' _ (by decide)]
    simp only [jsSplit, if_pos rfl]
    cases hs : jsSplit '=' x with
    | nil => exact absurd hs (jsSplit_ne_nil '=' x)
    | cons t ts =>
      have ht : t = x.takeWhile (fun c => c != '=') := by
        rw [← jsSplit_headI, hs]; rfl
      simp [ht]
  rw [h1]
  simp only [Option.some.injEq]
  rw [jsSplit_headI]

/-- Two nonempty Range headers with the same parse lead to the same
response. -/
theorem download_eq_of_parse (st : Option FileRecord)
    (resolve : Nat → Option (List Nat)) (a b : List Char)
    (ha : ¬ a = []) (hb : ¬ b = []) (h : parseRangeStart a = parseRangeStart b) :
    download st resolve (some a) = download st resolve (some b) := by
  cases st with
  | none => rfl
  | some r => simp [download, ha, hb, h]

/-- C7 counterexample: the header bytes=100-200 is NOT treated as if no
Range header were present: the response is a 206 partial response with
a Content-Range header, not the claimed 200 full response. -/
theorem range_form_counterexample :
    (download (some rC1) resolveC1 (some "bytes=100-200".data)).status = 206 ∧
    ¬ ((download (some rC1) resolveC1 (some "bytes=100-200".data)).status = 200) ∧
    ¬ ((download (some rC1) resolveC1 (some "bytes=100-200".data)).contentRange = none) := by
  decide

/-- C7 (amended): the handler never validates the Range form; it takes the
text between the first "=" and the following "-" as start and behaves as
if the header were bytes=<start>-, whatever follows: any suffix after
that first "-" is ignored (so bytes=100-200 is served exactly like
bytes=100-); a header whose start text is not a number (for example
bytes=-500) still commits to a 206, with NaN headers, an empty part
list and an empty body; a Range header containing no "=" makes the
handler throw, answered 500.  Only an absent (or empty, falsy) header
yields the 200 full-body response. -/
theorem range_header_start_only :
    (∀ (st : Option FileRecord) (resolve : Nat → Option (List Nat)) (p t : List Char),
      '=' ∉ p → '-' ∉ p →
      download st resolve (some ("bytes=".data ++ p ++ '-' :: t)) =
        download st resolve (some ("bytes=".data ++ p ++ ['-']))) ∧
    (download (some rC1) resolveC1 (some "bytes=-500".data) =
      ⟨206, none, some (none, none, 25000000), []⟩) ∧
    ((download (some rC1) resolveC1 (some "nonsense".data)).status = 500) := by
  refine ⟨?_, by decide, by decide⟩
  intro st resolve p t hp1 hp2
  have hall1 : ∀ c ∈ p, (c != '=') = true := by
    intro c hc
    simp only [bne_iff_ne, ne_eq]
    exact fun he => hp1 (he ▸ hc)
  have hall2 : ∀ c ∈ p, (c != '-') = true := by
    intro c hc
    simp only [bne_iff_ne, ne_eq]
    exact fun he => hp2 (he ▸ hc)
  apply download_eq_of_parse
  · simp
  · simp
  · rw [List.append_assoc, List.append_assoc, parseRangeStart_bytes, parseRangeStart_bytes]
    rw [takeWhile_append_all _ p _ hall1, takeWhile_append_all _ p _ hall1]
    have h3 : ('-' :: t).takeWhile (fun c => c != '=') =
        '-' :: t.takeWhile (fun c => c != '=') := by
      simp [List.takeWhile_cons]
    have h4 : (['-'] : List Char).takeWhile (fun c => c != '=') = ['-'] := by decide
    rw [h3, h4]
    rw [takeWhile_append_all _ p _ hall2, takeWhile_append_all _ p _ hall2]
    simp [List.takeWhile_cons]

/-- C7 witness: bytes=100-200 gets exactly the response of bytes=100-. -/
theorem range_header_start_only_witness :
    download (some rC1) resolveC1 (some ("bytes=".data ++ "100".data ++ '-' :: "200".data)) =
      download (some rC1) resolveC1 (some ("bytes=".data ++ "100".data ++ ['-'])) :=
  range_header_start_only.1 (some rC1) resolveC1 "100".data "200".data
    (by decide) (by decide)

/-! ### C10: unresolvable chunk references -/

/-- A download without a Range header streams every resolved chunk in
full: the body is the concatenation of the resolved URL list. -/
theorem streamParts_map_full (l : List (List Nat)) :
    streamParts (l.map (fun u => ⟨u, none, none⟩)) = l.flatten := by
  induction l with
  | nil => rfl
  | cons u us ih => simp [streamParts, fetchPart, ih]

/-- Dropping the unresolvable references can only shrink the total byte
count. -/
theorem filterMap_drop_sum_le (content : Nat → List Nat) (bad : Nat) (l : List Nat) :
    ((l.filterMap (fun i => if i = bad then none else some (content i))).map
      List.length).sum ≤ (l.map (fun i => (content i).length)).sum := by
  induction l with
  | nil => simp
  | cons i is ih =>
    by_cases hi : i = bad
    · subst hi
      simp only [List.filterMap_cons, if_pos, List.map_cons, List.sum_cons]
      omega
    · simp only [List.filterMap_cons, if_neg hi, List.map_cons, List.sum_cons]
      omega

/-- With at least one nonempty unresolvable chunk the total strictly
shrinks. -/
theorem filterMap_drop_sum_lt (content : Nat → List Nat) (bad : Nat) (l : List Nat)
    (hmem : bad ∈ l) (hlen : 0 < (content bad).length) :
    ((l.filterMap (fun i => if i = bad then none else some (content i))).map
      List.length).sum < (l.map (fun i => (content i).length)).sum := by
  induction l with
  | nil => cases hmem
  | cons i is ih =>
    by_cases hi : i = bad
    · subst hi
      simp only [List.filterMap_cons, if_pos, List.map_cons, List.sum_cons]
      have := filterMap_drop_sum_le content i is
      omega
    · have hmem' : bad ∈ is := by
        rcases List.mem_cons.mp hmem with h | h
        · exact absurd h.symm hi
        · exact h
      simp only [List.filterMap_cons, if_neg hi, List.map_cons, List.sum_cons]
      have := ih hmem'
      omega

/-- A 3-chunk record whose first chunk reference will not resolve. -/
def r10 : FileRecord :=
  { done := true, fileName := ['f'], fileSize := 12, chunkSize := 4,
    totalChunks := 3, deleteToken := some ['t'], fileIds := [1, 2, 3] }

/-- True contents of the remote objects behind references 1, 2, 3. -/
def content10 : Nat → List Nat :=
  fun i => [10 * i, 10 * i + 1, 10 * i + 2, 10 * i + 3]

/-- Resolution oracle under which reference 1 (the file's first chunk)
resolves to null. -/
def resolve10 : Nat → Option (List Nat) :=
  fun i => if i = 1 then none else some (content10 i)

/-- C10: chunk references resolving to null are silently dropped before
range slicing and streaming.  First part: for every record with an
unresolvable nonempty chunk, a rangeless download still answers 200
with Content-Length = fileSize but streams strictly fewer bytes than
advertised.  Second part: on a concrete 3-chunk record whose first
chunk is unresolvable, the ranged request bytes=0- advertises
Content-Range bytes 0-4/12 yet serves the byte [20] — the first byte of
the second chunk — instead of data of the true first chunk
(content10 1 = [10, 11, 12, 13]): the slice indices address the
shortened list, so the served bytes come from the wrong chunks. -/
theorem null_refs_dropped :
    (∀ (r : FileRecord) (content : Nat → List Nat) (bad : Nat),
      bad ∈ r.fileIds → 0 < (content bad).length →
      r.fileSize = ((r.fileIds.map (fun i => (content i).length)).sum : Int) →
      (download (some r) (fun i => if i = bad then none else some (content i)) none).status = 200 ∧
      (download (some r) (fun i => if i = bad then none else some (content i)) none).contentLength
        = some r.fileSize ∧
      ((download (some r) (fun i => if i = bad then none else some (content i)) none).body.length : Int)
        < r.fileSize) ∧
    (download (some r10) resolve10 (some "bytes=0-".data) =
      ⟨206, some 5, some (some 0, some 4, 12), [20]⟩ ∧
     content10 1 = [10, 11, 12, 13]) := by
  constructor
  · intro r content bad hmem hlen hfs
    refine ⟨rfl, rfl, ?_⟩
    have hbody :
        (download (some r) (fun i => if i = bad then none else some (content i)) none).body
          = (convertFileIdsToUrls (fun i => if i = bad then none else some (content i))
              r.fileIds).flatten := by
      simp [download, streamParts_map_full]
    rw [hbody, hfs, convertFileIdsToUrls, List.length_flatten]
    exact_mod_cast filterMap_drop_sum_lt content bad r.fileIds hmem hlen
  · exact ⟨by decide, by decide⟩

/-- C10 witness: the concrete record with an unresolvable chunk streams
strictly fewer bytes than the advertised fileSize. -/
theorem null_refs_dropped_witness :
    ((download (some r10) (fun i => if i = 1 then none else some (content10 i))
        none).body.length : Int) < r10.fileSize :=
  (null_refs_dropped.1 r10 content10 1 (by decide) (by decide) (by decide)).2.2

/-! ### C5: formatFileName -/

/-- Characters allowed in the cleaned base name: lowercase ASCII letters,
digits, and the hyphen. -/
def goodChar (c : Char) : Bool :=
  (decide (97 ≤ c.toNat) && decide (c.toNat ≤ 122)) ||
  (decide (48 ≤ c.toNat) && decide (c.toNat ≤ 57)) || c == '-'

/-- Every character a run-collapsing replace emits is either the
replacement or a non-run character of the input. -/
theorem mem_collapseRuns (p : Char → Bool) (rep : Char) (b : Bool) (l : List Char)
    (c : Char) (h : c ∈ collapseRuns p rep b l) :
    c = rep ∨ (c ∈ l ∧ p c = false) := by
  induction l generalizing b with
  | nil => cases h
  | cons d ds ih =>
    by_cases hd : p d
    · by_cases hb : b
      · simp only [collapseRuns, if_pos hd, if_pos hb] at h
        rcases ih true h with h1 | ⟨h1, h2⟩
        · exact Or.inl h1
        · exact Or.inr ⟨List.mem_cons_of_mem d h1, h2⟩
      · simp only [collapseRuns, if_pos hd, if_neg hb] at h
        rcases List.mem_cons.mp h with h1 | h1
        · exact Or.inl h1
        · rcases ih true h1 with h2 | ⟨h2, h3⟩
          · exact Or.inl h2
          · exact Or.inr ⟨List.mem_cons_of_mem d h2, h3⟩
    · simp only [collapseRuns, if_neg hd] at h
      rcases List.mem_cons.mp h with h1 | h1
      · subst h1
        exact Or.inr ⟨List.mem_cons_self c ds, Bool.not_eq_true _ ▸ eq_false_of_ne_true hd⟩
      · rcases ih false h1 with h2 | ⟨h2, h3⟩
        · exact Or.inl h2
        · exact Or.inr ⟨List.mem_cons_of_mem d h2, h3⟩

/-- After collapsing hyphen runs, no two adjacent output characters are
both hyphens; with the in-run flag set, the next emitted character is
never a hyphen. -/
theorem collapse_hyphen_aux (l : List Char) :
    (∀ b, List.Chain' (fun a c => ¬ (a = '-' ∧ c = '-'))
      (collapseRuns (fun c => c == '-') '-' b l)) ∧
    (∀ x, (collapseRuns (fun c => c == '-') '-' true l).head? = some x → ¬ x = '-') := by
  induction l with
  | nil => exact ⟨fun b => List.chain'_nil, fun x hx => by cases hx⟩
  | cons d ds ih =>
    by_cases hd : d = '-'
    · subst hd
      have hpd : (('-' : Char) == '-') = true := by decide
      refine ⟨fun b => ?_, fun x hx => ?_⟩
      · cases b with
        | true =>
          simpa only [collapseRuns, if_pos hpd, if_pos] using ih.1 true
        | false =>
          simp only [collapseRuns, if_pos hpd, Bool.false_eq_true, if_false]
          rw [List.chain'_cons']
          refine ⟨fun y hy => fun hc => ih.2 y hy hc.2, ih.1 true⟩
      · simp only [collapseRuns, if_pos hpd, if_pos] at hx
        exact ih.2 x hx
    · have hpd : ((d == '-') : Bool) = false := by
        simp only [beq_eq_false_iff_ne, ne_eq]; exact hd
      refine ⟨fun b => ?_, fun x hx => ?_⟩
      · simp only [collapseRuns, hpd, Bool.false_eq_true, if_false]
        rw [List.chain'_cons']
        exact ⟨fun y hy => fun hc => hd hc.1, (ih.1 false)⟩
      · simp only [collapseRuns, hpd, Bool.false_eq_true, if_false, List.head?_cons,
          Option.some.injEq] at hx
        subst hx
        exact hd

/-- Trimming only removes characters. -/
theorem mem_jsTrim (l : List Char) (c : Char) (h : c ∈ jsTrim l) : c ∈ l := by
  unfold jsTrim at h
  rw [List.mem_reverse] at h
  have h1 : c ∈ (l.dropWhile jsWhitespace).reverse :=
    (List.dropWhile_sublist _).mem h
  rw [List.mem_reverse] at h1
  exact (List.dropWhile_sublist _).mem h1

/-- toLower leaves any character outside the uppercase ASCII range
untouched. -/
theorem toLower_eq_of_not_upper (c : Char) (h : ¬ (65 ≤ c.toNat ∧ c.toNat ≤ 90)) :
    Char.toLower c = c := by
  unfold Char.toLower
  rw [if_neg]
  exact fun hc => h ⟨hc.1, hc.2⟩

/-- toLower maps an uppercase ASCII letter 32 code points up. -/
theorem toLower_upper_toNat (c : Char) (h1 : 65 ≤ c.toNat) (h2 : c.toNat ≤ 90) :
    (Char.toLower c).toNat = c.toNat + 32 := by
  unfold Char.toLower
  rw [if_pos ⟨h1, h2⟩]
  unfold Char.ofNat
  split
  · rfl
  · rename_i hv
    exact absurd (Or.inl (by omega)) hv

/-- No JS whitespace character is an uppercase ASCII letter. -/
theorem jsWhitespace_not_upper (c : Char) (h : jsWhitespace c = true) :
    ¬ (65 ≤ c.toNat ∧ c.toNat ≤ 90) := by
  intro hc
  simp only [jsWhitespace, Bool.or_eq_true, beq_iff_eq, decide_eq_true_eq,
    Bool.and_eq_true] at h
  repeat' rcases h with h | h
  all_goals first
    | exact absurd hc (by decide)
    | omega

/-- Splitting on an absent separator yields the whole string as the single
piece. -/
theorem jsSplit_eq_single (sep : Char) (l : List Char) (h : sep ∉ l) :
    jsSplit sep l = [l] := by
  induction l with
  | nil => rfl
  | cons c cs ih =>
    have hc : ¬ c = sep := fun he => h (he ▸ List.mem_cons_self c cs)
    simp only [jsSplit, if_neg hc]
    rw [ih (fun hm => h (List.mem_cons_of_mem c hm))]

/-- On a dotless filename the whole pipeline collapses: the base name is
empty. -/
theorem kebabBase_of_no_dot (nfd : List Char → List Char) (f : List Char)
    (hnfd : nfd [] = []) (h : '.' ∉ f) : kebabBase nfd f = [] := by
  have h0 : jsSplit '.' f = [f] := jsSplit_eq_single '.' f h
  have h1 : List.intercalate ['.'] ([] : List (List Char)) = [] := rfl
  simp only [kebabBase, h0, List.dropLast_single, h1, hnfd]
  rfl

/-- C5 counterexample: for the dotless filename "README" the result is
".README": split(".").pop() makes the WHOLE name the extension (and the
base empty), so the extension of the result is "README", not the empty
extension the claim predicts. -/
theorem formatFileName_no_dot_counterexample :
    formatFileName (fun s => s) "README".data false 0 = ".README".data ∧
    ¬ (lastExt (formatFileName (fun s => s) "README".data false 0) = []) := by
  decide

/-- C5 (amended): formatFileName's output is the cleaned base followed by
a dot and, verbatim (casing included), the part of the input after its
last dot; every character of the cleaned base is a lowercase ASCII
letter, a digit or a hyphen, and no two hyphens are adjacent.  For a
filename with no dot, however, the WHOLE name becomes the extension and
the base is empty: the result is "." followed by the unmodified name
(under any NFD model with nfd "" = "") — not an empty extension. -/
theorem formatFileName_spec :
    (∀ (nfd : List Char → List Char) (f : List Char),
      formatFileName nfd f false 0 = kebabBase nfd f ++ '.' :: lastExt f ∧
      (∀ c ∈ kebabBase nfd f, goodChar c = true) ∧
      List.Chain' (fun a b => ¬ (a = '-' ∧ b = '-')) (kebabBase nfd f)) ∧
    (∀ (nfd : List Char → List Char) (f : List Char),
      nfd [] = [] → '.' ∉ f →
      formatFileName nfd f false 0 = '.' :: f) := by
  constructor
  · intro nfd f
    refine ⟨by simp [formatFileName], ?_, (collapse_hyphen_aux _).1 false⟩
    intro c hc
    rcases mem_collapseRuns _ _ _ _ _ hc with rfl | ⟨hc1, _⟩
    · decide
    · rcases mem_collapseRuns _ _ _ _ _ hc1 with rfl | ⟨hc2, hw⟩
      · decide
      · obtain ⟨c0, hc0, rfl⟩ := List.mem_map.mp hc2
        have hk : jsKeep c0 = true :=
          (List.mem_filter.mp (mem_jsTrim _ _ hc0)).2
        simp only [jsKeep, Bool.or_eq_true] at hk
        rcases hk with ((ha | hd) | hws) | hh
        · simp only [Char.isAlpha, Bool.or_eq_true] at ha
          rcases ha with hu | hl
          · simp [Char.isUpper] at hu
            have hu2 : 65 ≤ Char.toNat c0 ∧ Char.toNat c0 ≤ 90 := ⟨hu.1, hu.2⟩
            have ht := toLower_upper_toNat c0 hu2.1 hu2.2
            simp only [goodChar, Bool.or_eq_true, Bool.and_eq_true, decide_eq_true_eq]
            refine Or.inl (Or.inl ⟨by omega, by omega⟩)
          · simp [Char.isLower] at hl
            have hl2 : 97 ≤ Char.toNat c0 ∧ Char.toNat c0 ≤ 122 := ⟨hl.1, hl.2⟩
            have ht := toLower_eq_of_not_upper c0 (by omega)
            rw [ht]
            simp only [goodChar, Bool.or_eq_true, Bool.and_eq_true, decide_eq_true_eq]
            exact Or.inl (Or.inl ⟨hl2.1, hl2.2⟩)
        · simp [Char.isDigit] at hd
          have hd2 : 48 ≤ Char.toNat c0 ∧ Char.toNat c0 ≤ 57 := ⟨hd.1, hd.2⟩
          have ht := toLower_eq_of_not_upper c0 (by omega)
          rw [ht]
          simp only [goodChar, Bool.or_eq_true, Bool.and_eq_true, decide_eq_true_eq]
          exact Or.inl (Or.inr ⟨hd2.1, hd2.2⟩)
        · have ht := toLower_eq_of_not_upper c0 (jsWhitespace_not_upper c0 hws)
          rw [ht] at hw
          rw [hws] at hw
          cases hw
        · have hc0' : c0 = '-' := by
            simpa only [beq_iff_eq] using hh
          subst hc0'
          decide
  · intro nfd f hnfd h
    simp only [formatFileName, kebabBase_of_no_dot nfd f hnfd h, Bool.false_eq_true,
      if_false, List.nil_append]
    have hlf : lastExt f = f := by
      unfold lastExt
      rw [jsSplit_eq_single '.' f h]
      rfl
    rw [hlf]

/-- C5 witness: the dotless clause evaluated at a concrete name. -/
theorem formatFileName_spec_witness :
    formatFileName (fun s => s) "LICENSE".data false 0 = '.' :: "LICENSE".data :=
  formatFileName_spec.2 (fun s => s) "LICENSE".data rfl (by decide)

end TeleCloud
